import Mathlib

/-!
Verification of the reactive core of `viu.js` (the VIU framework).

Each section embeds one part of the source file `src/viu.js` as executable
Lean definitions and proves the corresponding specification claims about it.
-/

namespace Viu

/-! ## JavaScript value model

The claims about the interception layer exercise primitive values (numbers,
including `NaN` and the two zeroes, strings, booleans, `undefined`) and boxed
values (refs) stored as properties.  Proxies never appear as property values
in the scenarios the claims quantify over, so `toRaw` is the identity on this
domain. -/

/-- JavaScript numbers as far as the sameness rule distinguishes them:
`NaN`, negative zero, and integers (`int 0` is positive zero). -/
inductive JNum
  | nan
  | negZero
  | int (i : Int)
deriving DecidableEq, Repr

/-- Property values handled by the modelled `set` trap: `undefined`,
booleans, numbers, strings, and refs (boxed values, compared by identity via
an id; `ro` records whether the box reports `__v_isReadonly`, as computed
refs do). -/
inductive JVal
  | undef
  | boolean (b : Bool)
  | num (n : JNum)
  | str (s : String)
  | refval (id : Nat) (ro : Bool)
deriving DecidableEq, Repr

/-- `Object.is` (the SameValue algorithm) on modelled numbers: `NaN` is equal
to `NaN`, and `+0` is different from `-0`. -/
def JNum.objectIs : JNum → JNum → Bool
  | .nan, .nan => true
  | .negZero, .negZero => true
  | .int a, .int b => a == b
  | _, _ => false

/-- `Object.is` on modelled property values; refs compare by identity. -/
def JVal.objectIs : JVal → JVal → Bool
  | .undef, .undef => true
  | .boolean a, .boolean b => a == b
  | .num a, .num b => a.objectIs b
  | .str a, .str b => a == b
  | .refval a r₁, .refval b r₂ => a == b && r₁ == r₂
  | _, _ => false

/-- `hasChanged` from src/viu.js line 921:
`(value, oldValue) => !Object.is(value, oldValue)`. -/
def hasChanged (value oldValue : JVal) : Bool := !(value.objectIs oldValue)

/-- `isRef` (src/viu.js line 624) restricted to modelled property values. -/
def JVal.isRefV : JVal → Bool
  | .refval _ _ => true
  | _ => false

/-- `isReadonly` (src/viu.js line 580) on modelled property values:
primitives carry no `__v_isReadonly` flag. -/
def JVal.isReadonlyV : JVal → Bool
  | .refval _ ro => ro
  | _ => false

/-- The id of a ref value (used when the setter assigns through the box). -/
def JVal.refIdOf : JVal → Nat
  | .refval i _ => i
  | _ => 0

/-! ## The `set` trap (`createSetter`, src/viu.js lines 337-371)

The target is a plain object modelled as a list of own string-keyed
properties, so the `isArray(target)` tests in the source are `false` and
`hadKey` is computed with `hasOwn`.  On this value domain `toRaw` is the
identity (no modelled property value carries `__v_raw`), hence the
`oldValue = toRaw(oldValue); value = toRaw(value)` step keeps both sides
unchanged and is immaterial. -/

/-- Trigger operation kinds the setter can emit. -/
inductive TrigKind
  | addK
  | setK
deriving DecidableEq, Repr

/-- `hasOwn(target, key)` for a plain object. -/
def hasOwnP (t : List (String × JVal)) (k : String) : Bool :=
  (t.lookup k).isSome

/-- `Reflect.set(target, key, value)` on a plain data object: overwrite the
existing property or append a new one. -/
def setProp (t : List (String × JVal)) (k : String) (v : JVal) :
    List (String × JVal) :=
  if (t.lookup k).isSome then
    t.map (fun kv => if kv.1 == k then (kv.1, v) else kv)
  else
    t ++ [(k, v)]

/-- Everything one invocation of the `set` trap produces: the updated target,
an optional write through an existing box (`oldValue.value = value`), the
trigger call it issued (if any), and the trap's return value. -/
structure SetResult where
  target : List (String × JVal)
  refWrite : Option (Nat × JVal)
  trig : Option (TrigKind × String × JVal)
  ret : Bool
deriving DecidableEq, Repr

/-- Shallow embedding of the `set` trap built by `createSetter`
(src/viu.js lines 337-371) for a plain-object target.  `directSet` stands for
the source's `target === toRaw(receiver)` test. -/
def createSetterSet (shallow : Bool) (target : List (String × JVal))
    (k : String) (value : JVal) (directSet : Bool) : SetResult :=
  let oldValue := (target.lookup k).getD JVal.undef
  if oldValue.isReadonlyV && oldValue.isRefV && !value.isRefV then
    { target := target, refWrite := none, trig := none, ret := false }
  else if !shallow && oldValue.isRefV && !value.isRefV then
    { target := target, refWrite := some (oldValue.refIdOf, value),
      trig := none, ret := true }
  else
    let hadKey := hasOwnP target k
    let target' := setProp target k value
    if directSet then
      if !hadKey then
        { target := target', refWrite := none,
          trig := some (.addK, k, value), ret := true }
      else if hasChanged value oldValue then
        { target := target', refWrite := none,
          trig := some (.setK, k, value), ret := true }
      else
        { target := target', refWrite := none, trig := none, ret := true }
    else
      { target := target', refWrite := none, trig := none, ret := true }

theorem JVal.objectIs_eq {a b : JVal} (h : JVal.objectIs a b = true) : a = b := by
  cases a <;> cases b <;> simp_all [JVal.objectIs, JNum.objectIs]
  case num.num m n =>
    cases m <;> cases n <;> simp_all [JNum.objectIs]

theorem JVal.objectIs_refl (a : JVal) : JVal.objectIs a a = true := by
  cases a <;> simp [JVal.objectIs, JNum.objectIs]
  case num n => cases n <;> simp [JNum.objectIs]

/-- **C1**: on a reactive object, setting an existing key to a value that is
the same as the current value under the sameness rule performs the
assignment (and reports success) but issues no trigger; in particular
writing `NaN` over `NaN` triggers nothing, while writing `-0` over `+0`
issues a `set` trigger. -/
theorem c1_same_value_write_never_triggers
    (target : List (String × JVal)) (k : String) (old v : JVal)
    (hk : target.lookup k = some old)
    (hsame : JVal.objectIs v old = true) :
    (createSetterSet false target k v true).trig = none ∧
    (createSetterSet false target k v true).target = setProp target k v ∧
    (createSetterSet false target k v true).ret = true ∧
    (createSetterSet false [("x", JVal.num JNum.nan)] "x"
        (JVal.num JNum.nan) true).trig = none ∧
    (createSetterSet false [("x", JVal.num (JNum.int 0))] "x"
        (JVal.num JNum.negZero) true).trig
      = some (TrigKind.setK, "x", JVal.num JNum.negZero) := by
  have hveq : v = old := JVal.objectIs_eq hsame
  subst hveq
  refine ⟨?_, ?_, ?_, by decide, by decide⟩ <;>
    · simp only [createSetterSet, hk, hasOwnP, hasChanged, Option.getD_some,
        Option.isSome_some, JVal.objectIs_refl]
      cases v <;> simp [JVal.isReadonlyV, JVal.isRefV]

/-- Witness for C1 at a concrete input: overwriting `y = 7` with `7`. -/
theorem c1_same_value_write_never_triggers_witness :
    (createSetterSet false [("y", JVal.num (JNum.int 7))] "y"
        (JVal.num (JNum.int 7)) true).trig = none :=
  (c1_same_value_write_never_triggers [("y", JVal.num (JNum.int 7))] "y"
    (JVal.num (JNum.int 7)) (JVal.num (JNum.int 7)) (by decide) (by decide)).1

/-! ## `triggerEffects` (src/viu.js lines 235-247)

`triggerEffects` spreads the dependency set into an array and makes two
passes over it, invoking `triggerEffect` on every effect carrying the
`computed` marker first and on every other effect second. -/

/-- An effect as `triggerEffects` distinguishes them: an identity and whether
`effect.computed` is set (it is set exactly by `ComputedRefImpl`). -/
structure Eff where
  id : Nat
  computed : Bool
deriving DecidableEq, Repr

/-- The order in which `triggerEffects` (src/viu.js lines 235-247) invokes
`triggerEffect` on the resolved effects: first pass over the computed
effects, second pass over the ordinary ones, each pass in list order. -/
def triggerEffectsOrder (dep : List Eff) : List Eff :=
  dep.filter (fun e => e.computed) ++ dep.filter (fun e => !e.computed)

/-- **C3**: the reaction order produced by `triggerEffects` is a permutation
of the resolved set in which every computed effect is triggered strictly
before any ordinary effect, regardless of insertion order. -/
theorem c3_computed_effects_triggered_first (dep : List Eff) :
    (triggerEffectsOrder dep).Perm dep ∧
    ∀ i j : Fin (triggerEffectsOrder dep).length,
      ((triggerEffectsOrder dep).get i).computed = true →
      ((triggerEffectsOrder dep).get j).computed = false →
      (i : Nat) < (j : Nat) := by
  constructor
  · exact List.filter_append_perm _ dep
  · intro i j hi hj
    have hleni : (i : Nat) < (dep.filter (fun e => e.computed)).length +
        (dep.filter (fun e => !e.computed)).length := by
      have := i.isLt
      simpa [triggerEffectsOrder] using this
    have hlenj : (j : Nat) < (dep.filter (fun e => e.computed)).length +
        (dep.filter (fun e => !e.computed)).length := by
      have := j.isLt
      simpa [triggerEffectsOrder] using this
    have hi' : (i : Nat) < (dep.filter (fun e => e.computed)).length := by
      by_contra hge
      push_neg at hge
      have hj2 : (i : Nat) - (dep.filter (fun e => e.computed)).length <
          (dep.filter (fun e => !e.computed)).length := by omega
      have hgi : (triggerEffectsOrder dep).get i =
          (dep.filter (fun e => !e.computed))[(i : Nat) -
            (dep.filter (fun e => e.computed)).length] := by
        simp only [triggerEffectsOrder, List.get_eq_getElem]
        exact List.getElem_append_right hge
      have hmem : (dep.filter (fun e => !e.computed))[(i : Nat) -
          (dep.filter (fun e => e.computed)).length] ∈
          dep.filter (fun e => !e.computed) := List.getElem_mem hj2
      rw [List.mem_filter, ← hgi, hi] at hmem
      simp at hmem
    have hj' : (dep.filter (fun e => e.computed)).length ≤ (j : Nat) := by
      by_contra hlt
      push_neg at hlt
      have hgj : (triggerEffectsOrder dep).get j =
          (dep.filter (fun e => e.computed))[(j : Nat)] := by
        simp only [triggerEffectsOrder, List.get_eq_getElem]
        exact List.getElem_append_left hlt
      have hmem : (dep.filter (fun e => e.computed))[(j : Nat)] ∈
          dep.filter (fun e => e.computed) := List.getElem_mem hlt
      rw [List.mem_filter, ← hgj, hj] at hmem
      simp at hmem
    omega

/-- Witness for C3: a dependency set inserted as [ordinary, computed] is
reacted to computed-first. -/
theorem c3_computed_effects_triggered_first_witness :
    (triggerEffectsOrder [Eff.mk 1 false, Eff.mk 2 true]).Perm
      [Eff.mk 1 false, Eff.mk 2 true] ∧ (0 : Nat) < 1 :=
  ⟨(c3_computed_effects_triggered_first [Eff.mk 1 false, Eff.mk 2 true]).1,
   (c3_computed_effects_triggered_first [Eff.mk 1 false, Eff.mk 2 true]).2
     ⟨0, by decide⟩ ⟨1, by decide⟩ (by decide) (by decide)⟩

/-! ## `ReactiveEffect.run` and `triggerEffect` (src/viu.js lines 76-100, 249-257)

`run` walks the `parent` links starting from the global `activeEffect` and
returns without executing the body when it finds itself; `triggerEffect`
skips an effect that is exactly the current `activeEffect` unless the effect
is marked `allowRecurse`.  The active call stack is modelled as the list of
effect ids from `activeEffect` through its `parent` chain (head = the
currently running effect); effect identity is the id. -/

/-- A `ReactiveEffect` as the re-entrancy logic sees it. -/
structure REffect where
  id : Nat
  fnId : Nat
  active : Bool
  allowRecurse : Bool
  hasScheduler : Bool
deriving DecidableEq, Repr

/-- What a call to `ReactiveEffect.run` does. -/
inductive RunOutcome
  | ranBody
  | blocked
deriving DecidableEq, Repr

/-- `ReactiveEffect.run` (src/viu.js lines 76-100): an inactive effect runs
its body directly; an active one first walks the parent chain and returns
(without running the body) if it is already on it. -/
def runEffect (e : REffect) (chain : List Nat) : RunOutcome :=
  if !e.active then .ranBody
  else if e.id ∈ chain then .blocked
  else .ranBody

/-- What a call to `triggerEffect` does to the named effect. -/
inductive NotifyOutcome
  | skipped
  | scheduled
  | ranBody
  | blocked
deriving DecidableEq, Repr

/-- `triggerEffect` (src/viu.js lines 249-257): proceed only when the effect
is not the current `activeEffect` or is marked `allowRecurse`; then either
invoke its scheduler or call `run`. -/
def triggerEffectOn (e : REffect) (chain : List Nat) : NotifyOutcome :=
  if chain.head? != some e.id || e.allowRecurse then
    if e.hasScheduler then .scheduled
    else
      match runEffect e chain with
      | .ranBody => .ranBody
      | .blocked => .blocked
  else .skipped

/-- **C4**: a notification naming the currently running effect is skipped
unless it allows recursion; a notification naming any effect on the active
call stack never runs its body (when recursion is not allowed); and `run` on
an effect that is an ancestor in the running chain returns without executing
the body. -/
theorem c4_no_reentrant_self_run (e : REffect) (chain : List Nat)
    (hact : e.active = true) :
    (chain.head? = some e.id → e.allowRecurse = false →
      triggerEffectOn e chain = .skipped) ∧
    (e.id ∈ chain → e.allowRecurse = false →
      triggerEffectOn e chain ≠ .ranBody) ∧
    (e.id ∈ chain → runEffect e chain = .blocked) := by
  refine ⟨?_, ?_, ?_⟩
  · intro hhead hrec
    simp [triggerEffectOn, hhead, hrec]
  · intro hmem hrec
    have hrun : runEffect e chain = .blocked := by
      simp [runEffect, hact, hmem]
    by_cases hh : chain.head? = some e.id
    · simp [triggerEffectOn, hh, hrec]
    · cases hs : e.hasScheduler <;>
        simp [triggerEffectOn, hh, hs, hrun]
  · intro hmem
    simp [runEffect, hact, hmem]

/-- Witness for C4: effect 5, running at the top of the stack. -/
theorem c4_no_reentrant_self_run_witness :
    triggerEffectOn (REffect.mk 5 0 true false false) [5] = .skipped ∧
    runEffect (REffect.mk 5 0 true false false) [5] = .blocked := by
  have h := c4_no_reentrant_self_run (REffect.mk 5 0 true false false) [5]
    (by decide)
  exact ⟨h.1 (by decide) (by decide), h.2.2 (by decide)⟩

/-! ## `effect(fn, options)` (src/viu.js lines 123-140) -/

/-- The argument to `effect`: a plain function, or a runner returned by a
previous `effect` call (then `fn.effect.fn` is unwrapped). -/
inductive EffectArg
  | fn (f : Nat)
  | runner (f : Nat) (eid : Nat)
deriving DecidableEq, Repr

/-- The body a given argument stands for. -/
def EffectArg.fnOf : EffectArg → Nat
  | .fn f => f
  | .runner f _ => f

/-- The option fields `effect` copies onto the created `ReactiveEffect` via
`extend` that this model tracks. -/
structure EffOptions where
  lazy : Bool
  allowRecurse : Bool
  hasScheduler : Bool
deriving DecidableEq, Repr

/-- The runner `effect` returns: `runner.effect` is the created effect. -/
structure EffRunner where
  effect : REffect
deriving DecidableEq, Repr

/-- `effect(fn, options)` (src/viu.js lines 123-140): unwrap a runner
argument, create the `ReactiveEffect`, copy the options onto it, run it once
unless `options.lazy`, and return the bound runner.  The second component
counts how many times the body executed during the call (`run` executes it
unless the fresh effect were already on the ambient chain). -/
def effectCall (arg : EffectArg) (opts : EffOptions) (chain : List Nat)
    (fresh : Nat) : EffRunner × Nat :=
  let e : REffect :=
    { id := fresh, fnId := arg.fnOf, active := true,
      allowRecurse := opts.allowRecurse, hasScheduler := opts.hasScheduler }
  let bodyRuns :=
    if !opts.lazy then
      match runEffect e chain with
      | .ranBody => 1
      | .blocked => 0
    else 0
  ({ effect := e }, bodyRuns)

/-- **C10**: `effect(fn, options)` runs the body exactly once during the call
unless `options.lazy` is set (then it does not run it), and returns a runner
whose `.effect` field is the created `ReactiveEffect` (with the body taken
from a runner argument's underlying effect when one is passed). -/
theorem c10_effect_runs_once_unless_lazy (arg : EffectArg) (opts : EffOptions)
    (chain : List Nat) (fresh : Nat) (hfresh : fresh ∉ chain) :
    (effectCall arg opts chain fresh).2 = (if opts.lazy then 0 else 1) ∧
    (effectCall arg opts chain fresh).1.effect =
      { id := fresh, fnId := arg.fnOf, active := true,
        allowRecurse := opts.allowRecurse,
        hasScheduler := opts.hasScheduler } := by
  constructor
  · cases hl : opts.lazy <;>
      simp [effectCall, runEffect, hl, hfresh]
  · rfl

/-- Witness for C10 at a concrete input: a non-lazy effect at top level. -/
theorem c10_effect_runs_once_unless_lazy_witness :
    (effectCall (EffectArg.fn 3) (EffOptions.mk false false false) [] 0).2 = 1 :=
  by
  have h := c10_effect_runs_once_unless_lazy (EffectArg.fn 3)
    (EffOptions.mk false false false) [] 0 (by decide)
  simpa using h.1

/-! ## `ComputedRefImpl` (src/viu.js lines 692-723)

The computed's state: `_dirty`, `_cacheable`, the cached `_value`, plus two
instrumentation counters — how often the underlying effect (the getter) has
run and how often the scheduler has notified the computed's own dependents
via `triggerRefValue`.  The getter is modelled as a pure function of an
upstream environment. -/

structure ComputedState (α : Type) where
  dirty : Bool
  cacheable : Bool
  cachedValue : Option α
  getterRuns : Nat
  notifyCount : Nat
deriving DecidableEq, Repr

/-- The state the `ComputedRefImpl` constructor produces: dirty, no cached
value yet, cacheable unless SSR. -/
def ComputedState.init (α : Type) (isSSR : Bool) : ComputedState α :=
  { dirty := true, cacheable := !isSSR, cachedValue := none,
    getterRuns := 0, notifyCount := 0 }

/-- The scheduler installed on the computed's effect (src/viu.js lines
699-704): if not already dirty, set dirty and notify the computed's own
dependents; the getter is never run here. -/
def computedScheduler {α : Type} (s : ComputedState α) : ComputedState α :=
  if !s.dirty then
    { s with dirty := true, notifyCount := s.notifyCount + 1 }
  else s

/-- `get value` (src/viu.js lines 710-718): after tracking, if dirty or not
cacheable, clear dirty and rerun the effect to refresh `_value`; return
`_value`. -/
def computedRead {α σ : Type} (getter : σ → α) (env : σ)
    (s : ComputedState α) : Option α × ComputedState α :=
  if s.dirty || !s.cacheable then
    let v := getter env
    let s' := { s with dirty := false, cachedValue := some v,
                       getterRuns := s.getterRuns + 1 }
    (some v, s')
  else (s.cachedValue, s)

/-- **C2**: the computed's scheduler only sets the dirty flag and notifies
its own dependents — it never runs the getter; the getter is re-run at the
next read after an invalidation; and reading twice with no intervening
upstream change runs the getter at most once and yields the same value. -/
theorem c2_computed_is_lazy {α σ : Type} (getter : σ → α) (env : σ)
    (s : ComputedState α) (hc : s.cacheable = true) :
    (computedScheduler s).getterRuns = s.getterRuns ∧
    (computedScheduler s).dirty = true ∧
    (s.dirty = false →
      (computedScheduler s).notifyCount = s.notifyCount + 1) ∧
    (computedRead getter env (computedScheduler s)).2.getterRuns
      = s.getterRuns + 1 ∧
    ((computedRead getter env
        (computedRead getter env s).2).2.getterRuns ≤ s.getterRuns + 1 ∧
      (computedRead getter env (computedRead getter env s).2).1
        = (computedRead getter env s).1) := by
  refine ⟨?_, ?_, ?_, ?_, ?_, ?_⟩
  · cases hd : s.dirty <;> simp [computedScheduler, hd]
  · cases hd : s.dirty <;> simp [computedScheduler, hd]
  · intro hd
    simp [computedScheduler, hd]
  · cases hd : s.dirty <;>
      simp [computedScheduler, computedRead, hd, hc]
  · cases hd : s.dirty <;>
      simp [computedRead, hd, hc]
  · cases hd : s.dirty <;>
      simp [computedRead, hd, hc]

/-- Witness for C2 at a concrete input: a clean cacheable computed over the
doubling getter. -/
theorem c2_computed_is_lazy_witness :
    (computedScheduler (ComputedState.mk true true (some 4) 1 0)).getterRuns
      = 1 ∧
    (computedRead (fun n : Nat => 2 * n) 2
        (computedRead (fun n : Nat => 2 * n) 2
          (ComputedState.mk true true (some 4) 1 0)).2).2.getterRuns ≤ 2 :=
  by
  have h := c2_computed_is_lazy (fun n : Nat => 2 * n) 2
    (ComputedState.mk true true (some 4) 1 0) (by decide)
  exact ⟨h.1, h.2.2.2.2.1⟩

/-! ## `computed(getterOrOptions)` (src/viu.js lines 725-743) -/

/-- How `computed` was invoked: with a bare getter function, or with an
options object whose `set` member may be present or absent. -/
inductive ComputedArgs
  | getterFn
  | options (hasSetter : Bool)
deriving DecidableEq, Repr

/-- What `computed` stores in `_setter`: the warning fallback (function
form), the user setter, or `undefined` (options form without `set`). -/
inductive StoredSetter
  | warnSetter
  | userSetter
  | undefinedSetter
deriving DecidableEq, Repr

/-- The setter and the `__v_isReadonly` flag (`onlyGetter || !setter`) that
`computed` (src/viu.js lines 725-743) installs on the created ref. -/
def computedMake : ComputedArgs → StoredSetter × Bool
  | .getterFn => (.warnSetter, true)
  | .options true => (.userSetter, false)
  | .options false => (.undefinedSetter, true)

/-- `set value(newValue)` (src/viu.js lines 720-722) invokes `this._setter`.
The warning fallback logs and returns; a user setter runs (its effects on
upstream state are outside this model); when `_setter` is `undefined`,
calling it throws a `TypeError` that propagates to the caller.  The `Bool`
reports whether a warning was logged. -/
def computedWriteRun {α : Type} (st : StoredSetter) (s : ComputedState α) :
    Except String (ComputedState α × Bool) :=
  match st with
  | .warnSetter => .ok (s, true)
  | .userSetter => .ok (s, false)
  | .undefinedSetter => .error "TypeError: this._setter is not a function"

/-- **C7 counterexample**: a derived value created from an options object
supplying only `get` stores `undefined` as its setter, so writing to
`.value` throws a `TypeError` instead of being rejected with a warning. -/
theorem c7_counterexample_options_only_get_throws :
    computedMake (ComputedArgs.options false)
      = (StoredSetter.undefinedSetter, true) ∧
    computedWriteRun StoredSetter.undefinedSetter (ComputedState.init Nat false)
      = .error "TypeError: this._setter is not a function" := by
  constructor <;> rfl

/-- **C7 (amended)**: for the getter-only function form, writing to `.value`
logs a warning, raises no exception and leaves the state unchanged; for an
options object supplying only `get`, writing throws a `TypeError` (the
stored `undefined` setter is invoked) and also leaves the state unchanged. -/
theorem c7_getter_only_write_rejected {α : Type} (s : ComputedState α) :
    computedMake ComputedArgs.getterFn = (StoredSetter.warnSetter, true) ∧
    computedWriteRun StoredSetter.warnSetter s = .ok (s, true) ∧
    computedWriteRun (α := α) StoredSetter.undefinedSetter s
      = .error "TypeError: this._setter is not a function" := by
  exact ⟨rfl, rfl, rfl⟩

/-! ## `ref`, `shallowRef`, `createRef` (src/viu.js lines 628-666)

Boxes live in a heap (a list of `RefImpl`s); a ref value points at its heap
slot.  The modelled payloads are primitives, on which `toRaw` and
`toReactive` are the identity, so both `_rawValue` and `_value` receive the
payload itself. -/

/-- The fields the `RefImpl` constructor (src/viu.js lines 643-650) sets. -/
structure RefImpl where
  isShallow : Bool
  rawValue : JVal
  value : JVal
deriving DecidableEq, Repr

/-- `createRef(rawValue, shallow)` (src/viu.js lines 636-641): a value that
is already a ref is returned unchanged; otherwise a fresh `RefImpl` is
allocated (its id is the current heap size). -/
def createRef (rawValue : JVal) (shallow : Bool) (heap : List RefImpl) :
    JVal × List RefImpl :=
  if rawValue.isRefV then (rawValue, heap)
  else (JVal.refval heap.length false,
        heap ++ [{ isShallow := shallow, rawValue := rawValue,
                   value := rawValue }])

/-- `ref(value)` (src/viu.js line 628). -/
def refMake (value : JVal) (heap : List RefImpl) : JVal × List RefImpl :=
  createRef value false heap

/-- `shallowRef(value)` (src/viu.js line 632). -/
def shallowRefMake (value : JVal) (heap : List RefImpl) :
    JVal × List RefImpl :=
  createRef value true heap

/-- **C9**: `ref` and `shallowRef` applied to a value that is already a ref
return that very value and allocate nothing, so box creation is idempotent
on boxes. -/
theorem c9_ref_idempotent_on_refs (r : JVal) (heap : List RefImpl)
    (h : r.isRefV = true) :
    refMake r heap = (r, heap) ∧ shallowRefMake r heap = (r, heap) := by
  constructor <;> simp [refMake, shallowRefMake, createRef, h]

/-- Witness for C9: re-boxing the ref with id 0. -/
theorem c9_ref_idempotent_on_refs_witness :
    refMake (JVal.refval 0 false) [] = (JVal.refval 0 false, []) :=
  (c9_ref_idempotent_on_refs (JVal.refval 0 false) [] (by decide)).1

/-! ## The length branch of `trigger` (src/viu.js lines 173-233)

On `trigger(target, type, 'length', newLength)` for an array target, the
deps map is walked and a set is collected when its key is `'length'` or
compares `>=` to the new length (JS relational comparison, which coerces the
string key to a number).  Keys are modelled as strings; dependency sets as
lists of effect ids. -/

/-- The numeric value of a decimal digit character, `none` otherwise. -/
def digitVal (c : Char) : Option Nat :=
  if c.val ≥ 48 && c.val ≤ 57 then some (c.toNat - 48) else none

/-- Base-10 accumulation over a character list; `none` as soon as a
non-digit appears. -/
def parseDigitsAux : List Char → Nat → Option Nat
  | [], acc => some acc
  | c :: cs, acc =>
    match digitVal c with
    | some d => parseDigitsAux cs (acc * 10 + d)
    | none => none

/-- The numeric value of an all-digit string (leading zeroes allowed),
`none` for the empty string or any string holding a non-digit. -/
def strDigitsToNat (s : String) : Option Nat :=
  match s.data with
  | [] => none
  | l => parseDigitsAux l 0

/-- `isIntegerKey` (src/viu.js lines 266-271): the key is a string, not
`'NaN'`, does not start with `'-'`, and survives the round-trip
`'' + parseInt(key, 10) === key`.  The four tests jointly accept exactly the
canonical base-10 numerals — nonempty, digits only, and no leading zero
except for `'0'` itself — which this predicate decides directly. -/
def isIntegerKey (k : String) : Bool :=
  match k.data with
  | [] => false
  | [c] => (digitVal c).isSome
  | c :: rest =>
    (digitVal c).isSome && !(c == '0') &&
      rest.all (fun d => (digitVal d).isSome)

/-- The JS comparison `key >= newValue` on the length branch of `trigger`
(src/viu.js line 184): the string key is coerced to a number first.  An
all-digit key coerces to its numeric value and a key whose `ToNumber` is
`NaN` (any key holding a non-digit) compares false; `ToNumber` of other
numeric spellings (empty string, signs, exponents) is not modelled — the C5
theorem constrains keys to `'length'` and canonical integer keys, where this
function agrees with JS. -/
def jsKeyGeNum (k : String) (n : Nat) : Bool :=
  match strDigitsToNat k with
  | some m => n ≤ m
  | none => false

/-- The length branch of `trigger` (src/viu.js lines 182-187): collect, in
map order, every dependency set whose key is `'length'` or compares `>=` to
the new length. -/
def collectLengthDeps (depsMap : List (String × List Nat)) (newLen : Nat) :
    List (List Nat) :=
  depsMap.filterMap (fun kd =>
    if kd.1 == "length" || jsKeyGeNum kd.1 newLen then some kd.2 else none)

/-- The resolution rule in the words of the spec, for comparison: the set
registered under `'length'` together with every index-keyed set whose index
is at least the new length. -/
def specLengthDeps (depsMap : List (String × List Nat)) (newLen : Nat) :
    List (List Nat) :=
  depsMap.filterMap (fun kd =>
    if kd.1 == "length" ||
        (isIntegerKey kd.1 && decide (newLen ≤ (strDigitsToNat kd.1).getD 0))
    then some kd.2
    else none)

theorem parseDigitsAux_isSome_of_digits (l : List Char) (acc : Nat)
    (h : l.all (fun d => (digitVal d).isSome) = true) :
    ∃ m, parseDigitsAux l acc = some m := by
  induction l generalizing acc with
  | nil => exact ⟨acc, rfl⟩
  | cons c cs ih =>
    simp only [List.all_cons, Bool.and_eq_true] at h
    obtain ⟨d, hd⟩ := Option.isSome_iff_exists.1 h.1
    have hstep : parseDigitsAux (c :: cs) acc
        = parseDigitsAux cs (acc * 10 + d) := by
      simp [parseDigitsAux, hd]
    rw [hstep]
    exact ih (acc * 10 + d) h.2

theorem strDigitsToNat_isSome_of_integerKey (k : String)
    (h : isIntegerKey k = true) :
    ∃ m, strDigitsToNat k = some m := by
  have hall : k.data ≠ [] ∧
      (k.data.all fun d => (digitVal d).isSome) = true := by
    unfold isIntegerKey at h
    match hd : k.data with
    | [] => rw [hd] at h; exact absurd h (by simp)
    | [c] =>
      rw [hd] at h
      exact ⟨by simp, by simpa using h⟩
    | c :: c' :: rest =>
      rw [hd] at h
      simp only [Bool.and_eq_true, List.all_cons] at h
      refine ⟨by simp, ?_⟩
      simp only [List.all_cons, Bool.and_eq_true]
      exact ⟨h.1.1, h.2⟩
  obtain ⟨hne, hdig⟩ := hall
  match hd : k.data with
  | [] => exact absurd hd hne
  | c :: cs =>
    rw [hd] at hdig
    have hrw : strDigitsToNat k = parseDigitsAux (c :: cs) 0 := by
      simp [strDigitsToNat, hd]
    rw [hrw]
    exact parseDigitsAux_isSome_of_digits (c :: cs) 0 hdig

/-- **C5**: for an array deps map (keys are `'length'` or index keys), a
length trigger with new length `n` resolves exactly the `'length'` set
together with every index-keyed set whose index is `≥ n` — and hence no
index-keyed set with index below `n`. -/
theorem c5_length_trigger_resolves_tail_indices
    (depsMap : List (String × List Nat)) (n : Nat)
    (hkeys : ∀ kd ∈ depsMap, kd.1 = "length" ∨ isIntegerKey kd.1 = true) :
    collectLengthDeps depsMap n = specLengthDeps depsMap n := by
  unfold collectLengthDeps specLengthDeps
  apply List.filterMap_congr
  intro kd hkd
  rcases hkeys kd hkd with h | h
  · simp [h]
  · obtain ⟨m, hm⟩ := strDigitsToNat_isSome_of_integerKey kd.1 h
    simp [jsKeyGeNum, hm, h]

/-- Witness for C5: deps under `'length'`, index 0 and index 2, with new
length 1: the `'length'` set and the index-2 set are resolved, the index-0
set is not. -/
theorem c5_length_trigger_resolves_tail_indices_witness :
    collectLengthDeps [("length", [1]), ("0", [2]), ("2", [3])] 1
      = specLengthDeps [("length", [1]), ("0", [2]), ("2", [3])] 1 ∧
    collectLengthDeps [("length", [1]), ("0", [2]), ("2", [3])] 1
      = [[1], [3]] :=
  ⟨c5_length_trigger_resolves_tail_indices _ 1 (by decide), by decide⟩

/-! ## `createReactiveObject` and the four caches (src/viu.js lines 474-571)

Objects live on a heap.  A slot holds a plain raw object (carrying its
`__v_skip` mark, extensibility, and raw-type class), a proxy created by
`createReactiveObject` (which knows its raw target and its handlers' flags),
or a non-object value.  Reading `__v_raw` on a proxy yields its raw target
(the receiver check succeeds because every created proxy is registered in
its own variant's cache); reading `__v_isReactive` / `__v_isReadonly` yields
the handler flags; plain objects report none of these. -/

/-- `targetTypeMap(toRawType(value))` (src/viu.js lines 480-493). -/
inductive TargetType
  | common
  | collection
  | invalid
deriving DecidableEq, Repr

/-- One heap slot. -/
inductive Entity
  | plainObj (skip : Bool) (extensible : Bool) (ty : TargetType)
  | proxyObj (raw : Nat) (ro : Bool) (sh : Bool)
  | nonObject
deriving DecidableEq, Repr

/-- The four wrapping variants and their identity-keyed caches. -/
inductive Variant
  | reactiveV
  | shallowReactiveV
  | readonlyV
  | shallowReadonlyV
deriving DecidableEq, Repr

/-- The heap plus the four caches (src/viu.js lines 475-478). -/
structure World where
  heap : List Entity
  rMap : List (Nat × Nat)
  srMap : List (Nat × Nat)
  roMap : List (Nat × Nat)
  sroMap : List (Nat × Nat)
deriving DecidableEq, Repr

def World.entity (w : World) (t : Nat) : Entity :=
  w.heap.getD t Entity.nonObject

/-- `isObject(target)` (src/viu.js line 28). -/
def isObjectE (w : World) (t : Nat) : Bool :=
  match w.entity t with
  | .nonObject => false
  | _ => true

/-- Reading `target["__v_raw"]` (truthy exactly on proxies). -/
def rawOfE (w : World) (t : Nat) : Option Nat :=
  match w.entity t with
  | .proxyObj r _ _ => some r
  | _ => none

/-- Reading `target["__v_isReactive"]` (src/viu.js lines 284-285). -/
def isReactiveFlagE (w : World) (t : Nat) : Bool :=
  match w.entity t with
  | .proxyObj _ ro _ => !ro
  | _ => false

/-- Reading `target["__v_isReadonly"]`, i.e. `isReadonly` (line 580). -/
def isReadonlyE (w : World) (t : Nat) : Bool :=
  match w.entity t with
  | .proxyObj _ ro _ => ro
  | _ => false

def variantIsReadonly : Variant → Bool
  | .readonlyV => true
  | .shallowReadonlyV => true
  | _ => false

def variantShallow : Variant → Bool
  | .shallowReactiveV => true
  | .shallowReadonlyV => true
  | _ => false

def mapOf (w : World) : Variant → List (Nat × Nat)
  | .reactiveV => w.rMap
  | .shallowReactiveV => w.srMap
  | .readonlyV => w.roMap
  | .shallowReadonlyV => w.sroMap

def withMapEntry (w : World) (v : Variant) (t pid : Nat) : World :=
  match v with
  | .reactiveV => { w with rMap := (t, pid) :: w.rMap }
  | .shallowReactiveV => { w with srMap := (t, pid) :: w.srMap }
  | .readonlyV => { w with roMap := (t, pid) :: w.roMap }
  | .shallowReadonlyV => { w with sroMap := (t, pid) :: w.sroMap }

/-- Proxies are transparent for `__v_skip` reads, `Object.isExtensible`, and
the `toString` tag, so `getTargetType` applied to a proxy resolves through
to its underlying plain object; the fuel bounds the `__v_raw` chain by the
heap size. -/
def resolvePlain (w : World) : Nat → Nat → Option (Bool × Bool × TargetType)
  | 0, _ => none
  | fuel + 1, t =>
    match w.entity t with
    | .plainObj s e ty => some (s, e, ty)
    | .proxyObj r _ _ => resolvePlain w fuel r
    | .nonObject => none

/-- `getTargetType` (src/viu.js lines 495-499): `__v_skip` or a
non-extensible target is invalid, otherwise the raw-type class decides. -/
def getTargetTypeE (w : World) (t : Nat) : TargetType :=
  match resolvePlain w (w.heap.length + 1) t with
  | some (s, e, ty) => if s || !e then .invalid else ty
  | none => .invalid

/-- The value a wrapping call produces.  All four public wrappers pass
`null` collection handlers, so `new Proxy(target, null)` on a collection
target throws a `TypeError`, modelled as `thrown`. -/
inductive WrapResult
  | val (id : Nat)
  | thrown
deriving DecidableEq, Repr

/-- `createReactiveObject` (src/viu.js lines 545-571). -/
def createReactiveObject (w : World) (t : Nat) (isRo : Bool) (v : Variant) :
    WrapResult × World :=
  if !isObjectE w t then (.val t, w)
  else if (rawOfE w t).isSome && !(isRo && isReactiveFlagE w t) then
    (.val t, w)
  else
    match (mapOf w v).lookup t with
    | some p => (.val p, w)
    | none =>
      match getTargetTypeE w t with
      | .invalid => (.val t, w)
      | .collection => (.thrown, w)
      | .common =>
        let pid := w.heap.length
        let w' := { w with
          heap := w.heap ++ [Entity.proxyObj t isRo (variantShallow v)] }
        (.val pid, withMapEntry w' v t pid)

/-- `reactive(target)` (src/viu.js lines 502-513). -/
def reactiveW (w : World) (t : Nat) : WrapResult × World :=
  if isReadonlyE w t then (.val t, w)
  else createReactiveObject w t false .reactiveV

/-- `shallowReactive(target)` (src/viu.js lines 515-523). -/
def shallowReactiveW (w : World) (t : Nat) : WrapResult × World :=
  createReactiveObject w t false .shallowReactiveV

/-- `readonly(target)` (src/viu.js lines 525-533). -/
def readonlyW (w : World) (t : Nat) : WrapResult × World :=
  createReactiveObject w t true .readonlyV

/-- `shallowReadonly(target)` (src/viu.js lines 535-543). -/
def shallowReadonlyW (w : World) (t : Nat) : WrapResult × World :=
  createReactiveObject w t true .shallowReadonlyV

/-- The wrapper a variant names. -/
def wrapW (v : Variant) (w : World) (t : Nat) : WrapResult × World :=
  match v with
  | .reactiveV => reactiveW w t
  | .shallowReactiveV => shallowReactiveW w t
  | .readonlyV => readonlyW w t
  | .shallowReadonlyV => shallowReadonlyW w t

theorem entity_lt_length {w : World} {t : Nat} {s e : Bool} {ty : TargetType}
    (h : w.entity t = Entity.plainObj s e ty) : t < w.heap.length := by
  by_contra hge
  push_neg at hge
  unfold World.entity at h
  rw [List.getD_eq_default _ _ hge] at h
  exact absurd h (by simp)

theorem entity_append {w : World} {t : Nat} (x : Entity)
    (hlt : t < w.heap.length) :
    (w.heap ++ [x]).getD t Entity.nonObject = w.entity t := by
  unfold World.entity
  rw [List.getD_eq_getElem?_getD, List.getD_eq_getElem?_getD,
    List.getElem?_append_left hlt]

theorem mapOf_withMapEntry (w : World) (v : Variant) (t pid : Nat) :
    mapOf (withMapEntry w v t pid) v = (t, pid) :: mapOf w v := by
  cases v <;> rfl

theorem heap_withMapEntry (w : World) (v : Variant) (t pid : Nat) :
    (withMapEntry w v t pid).heap = w.heap := by
  cases v <;> rfl

theorem entity_createReactiveObject (w : World) (t : Nat) (isRo : Bool)
    (v : Variant) (i : Nat) (hlt : i < w.heap.length) :
    (createReactiveObject w t isRo v).2.entity i = w.entity i := by
  unfold createReactiveObject
  split
  · rfl
  · split
    · rfl
    · split
      · rfl
      · split
        · rfl
        · rfl
        · simp only [World.entity, heap_withMapEntry]
          exact entity_append _ hlt

/-- **C6**: wrapping the same wrappable raw object twice with the same
variant yields the identical proxy and leaves the world unchanged on the
second call; re-wrapping an already-wrapped object returns the existing
wrapper unchanged for every variant except a read-only wrapper applied to a
reactive proxy; and that excepted case really does produce a distinct
(upgraded) wrapper. -/
theorem c6_wrap_idempotent_and_rewrap_stable
    (w : World) (t : Nat) (v : Variant)
    (hplain : w.entity t = Entity.plainObj false true TargetType.common)
    (p r : Nat) (ro sh : Bool)
    (hproxy : w.entity p = Entity.proxyObj r ro sh)
    (hnoup : ro = true ∨ variantIsReadonly v = false) :
    ((wrapW v (wrapW v w t).2 t).1 = (wrapW v w t).1 ∧
      (wrapW v (wrapW v w t).2 t).2 = (wrapW v w t).2) ∧
    wrapW v w p = (.val p, w) ∧
    (readonlyW
      (reactiveW (World.mk [Entity.plainObj false true .common] [] [] [] []) 0).2
      1).1 = .val 2 := by
  have hlt : t < w.heap.length := entity_lt_length hplain
  have hraw : rawOfE w t = none := by simp [rawOfE, hplain]
  have hobj : isObjectE w t = true := by simp [isObjectE, hplain]
  have hro : isReadonlyE w t = false := by simp [isReadonlyE, hplain]
  have hty : getTargetTypeE w t = .common := by
    simp [getTargetTypeE, resolvePlain, hplain]
  refine ⟨?_, ?_, by decide⟩
  · -- idempotence of each variant on a wrappable plain object
    have key : ∀ isRo,
        ((createReactiveObject (createReactiveObject w t isRo v).2 t isRo v).1
            = (createReactiveObject w t isRo v).1 ∧
          (createReactiveObject (createReactiveObject w t isRo v).2 t isRo v).2
            = (createReactiveObject w t isRo v).2) := by
      intro isRo
      cases hl : (mapOf w v).lookup t with
      | some q =>
        have h1 : createReactiveObject w t isRo v = (.val q, w) := by
          simp [createReactiveObject, hobj, hraw, hl]
        rw [h1, h1]
        exact ⟨rfl, rfl⟩
      | none =>
        have h1 : createReactiveObject w t isRo v =
            (.val w.heap.length,
              withMapEntry { w with
                heap := w.heap ++ [Entity.proxyObj t isRo (variantShallow v)] }
                v t w.heap.length) := by
          simp [createReactiveObject, hobj, hraw, hl, hty]
        set w2 := withMapEntry { w with
          heap := w.heap ++ [Entity.proxyObj t isRo (variantShallow v)] }
          v t w.heap.length with hw2
        have hent2 : w2.entity t = Entity.plainObj false true TargetType.common := by
          rw [show w2.entity t = (w.heap ++
              [Entity.proxyObj t isRo (variantShallow v)]).getD t Entity.nonObject by
            simp [World.entity, hw2, heap_withMapEntry]]
          rw [entity_append _ hlt]
          exact hplain
        have hobj2 : isObjectE w2 t = true := by simp [isObjectE, hent2]
        have hraw2 : rawOfE w2 t = none := by simp [rawOfE, hent2]
        have hl2 : (mapOf w2 v).lookup t = some w.heap.length := by
          rw [hw2, mapOf_withMapEntry]
          simp [List.lookup]
        have h2 : createReactiveObject w2 t isRo v = (.val w.heap.length, w2) := by
          simp [createReactiveObject, hobj2, hraw2, hl2]
        rw [h1]
        rw [show (WrapResult.val w.heap.length, w2).2 = w2 from rfl]
        rw [h2]
        exact ⟨rfl, rfl⟩
    cases v with
    | reactiveV =>
      have hrw : ∀ w' : World, w'.entity t = Entity.plainObj false true .common →
          wrapW .reactiveV w' t = createReactiveObject w' t false .reactiveV := by
        intro w' h'
        simp [wrapW, reactiveW, isReadonlyE, h']
      have h1 := hrw w hplain
      have hent1 : (createReactiveObject w t false .reactiveV).2.entity t
          = Entity.plainObj false true TargetType.common := by
        rw [entity_createReactiveObject w t false .reactiveV t hlt]
        exact hplain
      rw [h1, hrw _ hent1]
      exact key false
    | shallowReactiveV =>
      have h1 : ∀ w', wrapW .shallowReactiveV w' t
          = createReactiveObject w' t false .shallowReactiveV := fun _ => rfl
      rw [h1, h1]
      exact key false
    | readonlyV =>
      have h1 : ∀ w', wrapW .readonlyV w' t
          = createReactiveObject w' t true .readonlyV := fun _ => rfl
      rw [h1, h1]
      exact key true
    | shallowReadonlyV =>
      have h1 : ∀ w', wrapW .shallowReadonlyV w' t
          = createReactiveObject w' t true .shallowReadonlyV := fun _ => rfl
      rw [h1, h1]
      exact key true
  · -- re-wrapping an existing proxy is stable outside the upgrade case
    have hobjp : isObjectE w p = true := by simp [isObjectE, hproxy]
    have hrawp : rawOfE w p = some r := by simp [rawOfE, hproxy]
    cases v with
    | reactiveV =>
      cases hros : ro with
      | true => simp [wrapW, reactiveW, isReadonlyE, hproxy, hros]
      | false =>
        simp [wrapW, reactiveW, isReadonlyE, hproxy, hros,
          createReactiveObject, isObjectE, rawOfE]
    | shallowReactiveV =>
      simp [wrapW, shallowReactiveW, createReactiveObject, hobjp, hrawp]
    | readonlyV =>
      rcases hnoup with hros | hvar
      · subst hros
        simp [wrapW, readonlyW, createReactiveObject, hobjp, hrawp,
          isReactiveFlagE, hproxy]
      · exact absurd hvar (by simp [variantIsReadonly])
    | shallowReadonlyV =>
      rcases hnoup with hros | hvar
      · subst hros
        simp [wrapW, shallowReadonlyW, createReactiveObject, hobjp, hrawp,
          isReactiveFlagE, hproxy]
      · exact absurd hvar (by simp [variantIsReadonly])

/-- Witness for C6: a world holding one wrappable plain object and one
readonly proxy over it; re-wrapping the proxy with `reactive` is stable. -/
theorem c6_wrap_idempotent_and_rewrap_stable_witness :
    wrapW Variant.reactiveV
        (World.mk [Entity.plainObj false true .common,
          Entity.proxyObj 0 true false] [] [] [(0, 1)] []) 1
      = (.val 1,
        World.mk [Entity.plainObj false true .common,
          Entity.proxyObj 0 true false] [] [] [(0, 1)] []) :=
  (c6_wrap_idempotent_and_rewrap_stable
    (World.mk [Entity.plainObj false true .common,
      Entity.proxyObj 0 true false] [] [] [(0, 1)] [])
    0 Variant.reactiveV (by decide) 1 0 true false (by decide)
    (Or.inl rfl)).2.1

/-! ## The scheduler queue (`queueJob`, src/viu.js lines 1026-1161)

A job carries an identity (`key` — two model jobs are the same JS object
exactly when they are equal), an optional numeric `id`, and the flags
`queueJob` consults.  `getId` treats a missing id as `Infinity`; the
comparisons below encode that convention.  The state holds the pieces of
scheduler state `queueJob` reads: the queue, `flushIndex`, `isFlushing` and
`currentPreFlushParentJob` (`queueFlush` only schedules the flush and never
touches the queue, so it is omitted). -/

structure Job where
  key : Nat
  id : Option Nat
  allowRecurse : Bool
  pre : Bool
deriving DecidableEq, Repr

instance : Inhabited Job := ⟨⟨0, none, false, false⟩⟩

/-- `getId` (src/viu.js line 1101): `job.id == null ? Infinity : job.id`;
`none` plays `Infinity`. -/
def getId (j : Job) : Option Nat := j.id

/-- `a <= b` with `none` as `Infinity`. -/
def idLE : Option Nat → Option Nat → Bool
  | _, none => true
  | none, some _ => false
  | some x, some y => x ≤ y

/-- `a < n` for a numeric `n`, with `none` as `Infinity` (so always false):
the `middleJobId < id` test of the binary search. -/
def idLT : Option Nat → Nat → Bool
  | none, _ => false
  | some m, n => m < n

/-- Job `a` orders no later than job `b`. -/
def JobLe (a b : Job) : Prop := idLE (getId a) (getId b) = true

instance : DecidableRel JobLe := fun a b => by
  unfold JobLe
  infer_instance

structure SchedState where
  queue : List Job
  flushIndex : Nat
  isFlushing : Bool
  currentPreFlushParentJob : Option Job
deriving DecidableEq, Repr

/-- The binary-search loop of `findInsertionIndex` (src/viu.js lines
1110-1121), fuel-bounded; `middle` is `(start + stop) >>> 1`, which equals
`(start + stop) / 2` for these magnitudes.  The fuel only needs to cover the
iteration count, which is at most the initial interval width. -/
def fiiGo (queue : List Job) (id : Nat) : Nat → Nat → Nat → Nat
  | 0, start, _ => start
  | fuel + 1, start, stop =>
    if start < stop then
      if idLT (getId (queue.getD ((start + stop) / 2) default)) id then
        fiiGo queue id fuel ((start + stop) / 2 + 1) stop
      else
        fiiGo queue id fuel start ((start + stop) / 2)
    else start

/-- `findInsertionIndex(id)` (src/viu.js lines 1110-1121): the search range
starts at `flushIndex + 1` — also while no flush is in progress, when
`flushIndex` is 0. -/
def findInsertionIndex (flushIndex : Nat) (queue : List Job) (id : Nat) :
    Nat :=
  fiiGo queue id (queue.length + 1) (flushIndex + 1) queue.length

/-- `queue.splice(pos, 0, job)`: JS clamps the position to the queue length,
so an out-of-range position appends. -/
def spliceInsert (queue : List Job) (pos : Nat) (j : Job) : List Job :=
  queue.insertIdx (min pos queue.length) j

/-- `queue.includes(job, fromIndex)`. -/
def includesFrom (queue : List Job) (fromIdx : Nat) (j : Job) : Bool :=
  (queue.drop fromIdx).contains j

/-- `queueJob(job)` (src/viu.js lines 1040-1050). -/
def queueJob (s : SchedState) (j : Job) : SchedState :=
  let fromIdx := if s.isFlushing && j.allowRecurse then s.flushIndex + 1
    else s.flushIndex
  if (s.queue.isEmpty || !(includesFrom s.queue fromIdx j)) &&
      !(s.currentPreFlushParentJob == some j) then
    match j.id with
    | none => { s with queue := s.queue ++ [j] }
    | some id =>
      { s with queue :=
          spliceInsert s.queue (findInsertionIndex s.flushIndex s.queue id) j }
  else s

/-- Ascending queue order by `getId` (missing ids largest), as the claim
states it. -/
def queueAscending : List Job → Bool
  | [] => true
  | [_] => true
  | a :: b :: rest => idLE (getId a) (getId b) && queueAscending (b :: rest)

/-- **C8 counterexample**: from the idle empty queue, enqueue a job with
id 5 and then a job with id 3.  The binary search starts at
`flushIndex + 1 = 1` even while idle, so the second job lands after the
first and the queue reads ids `[5, 3]` — not ascending. -/
theorem c8_counterexample_idle_insert_out_of_order :
    (queueJob (queueJob (SchedState.mk [] 0 false none)
        (Job.mk 1 (some 5) false false))
        (Job.mk 2 (some 3) false false)).queue
      = [Job.mk 1 (some 5) false false, Job.mk 2 (some 3) false false] ∧
    queueAscending
      (queueJob (queueJob (SchedState.mk [] 0 false none)
          (Job.mk 1 (some 5) false false))
          (Job.mk 2 (some 3) false false)).queue = false := by
  constructor <;> decide

theorem idLE_refl (a : Option Nat) : idLE a a = true := by
  cases a <;> simp [idLE]

theorem jobLe_refl (a : Job) : JobLe a a := idLE_refl _

theorem idLT_of_le_of_lt {a b : Option Nat} {n : Nat}
    (h1 : idLE a b = true) (h2 : idLT b n = true) : idLT a n = true := by
  cases a <;> cases b <;> first
    | (simp_all [idLE, idLT]; omega)
    | simp_all [idLE, idLT]

theorem jobLe_of_idLT {a j : Job} {n : Nat} (hj : getId j = some n)
    (h : idLT (getId a) n = true) : JobLe a j := by
  unfold JobLe
  rw [hj]
  cases ha : getId a with
  | none => rw [ha] at h; exact absurd h (by simp [idLT])
  | some m =>
    rw [ha] at h
    simp only [idLT, decide_eq_true_eq] at h
    simp [idLE]
    omega

theorem jobLe_of_not_idLT {b j : Job} {n : Nat} (hj : getId j = some n)
    (h : idLT (getId b) n = false) : JobLe j b := by
  unfold JobLe
  rw [hj]
  cases hb : getId b with
  | none => simp [idLE]
  | some m =>
    rw [hb] at h
    simp only [idLT, decide_eq_false_iff_not] at h
    simp [idLE]
    omega

theorem getD_eq_getElemJ (l : List Job) (k : Nat) (h : k < l.length) :
    l.getD k default = l[k] := by
  simp [List.getD_eq_getElem?_getD, List.getElem?_eq_getElem h]

/-- Characterisation of the fuel-bounded binary search: on an interval whose
jobs are sorted, it lands on the frontier between the ids below `id` and the
rest. -/
theorem fiiGo_spec (queue : List Job) (id : Nat) :
    ∀ fuel start stop, start ≤ stop → stop ≤ queue.length →
      stop - start ≤ fuel →
      (∀ k₁ k₂, start ≤ k₁ → k₁ ≤ k₂ → k₂ < stop →
        JobLe (queue.getD k₁ default) (queue.getD k₂ default)) →
      start ≤ fiiGo queue id fuel start stop ∧
      fiiGo queue id fuel start stop ≤ stop ∧
      (∀ k, start ≤ k → k < fiiGo queue id fuel start stop →
        idLT (getId (queue.getD k default)) id = true) ∧
      (∀ k, fiiGo queue id fuel start stop ≤ k → k < stop →
        idLT (getId (queue.getD k default)) id = false) := by
  intro fuel
  induction fuel with
  | zero =>
    intro start stop h1 h2 h3 hmono
    have heq : stop = start := by omega
    subst heq
    exact ⟨Nat.le_refl _, Nat.le_refl _,
      fun k hk1 hk2 => by simp [fiiGo] at hk2; omega,
      fun k hk1 hk2 => by simp [fiiGo] at hk1; omega⟩
  | succ fuel ih =>
    intro start stop h1 h2 h3 hmono
    by_cases hlt : start < stop
    · have hm1 : start ≤ (start + stop) / 2 := by omega
      have hm2 : (start + stop) / 2 < stop := by omega
      cases hmid : idLT (getId (queue.getD ((start + stop) / 2) default)) id
      · have hunf : fiiGo queue id (fuel + 1) start stop
            = fiiGo queue id fuel start ((start + stop) / 2) := by
          simp only [fiiGo]
          rw [if_pos hlt, hmid]
          simp
        obtain ⟨r1, r2, rlo, rhi⟩ := ih start ((start + stop) / 2)
          hm1 (by omega) (by omega)
          (fun k₁ k₂ hk1 hk2 hk3 => hmono k₁ k₂ hk1 hk2 (by omega))
        rw [hunf]
        refine ⟨r1, by omega, rlo, ?_⟩
        intro k hk1 hk2
        by_cases hkm : k < (start + stop) / 2
        · exact rhi k hk1 hkm
        · by_contra htrue
          rw [Bool.not_eq_false] at htrue
          have hle := hmono ((start + stop) / 2) k hm1 (by omega) hk2
          have := idLT_of_le_of_lt hle htrue
          rw [hmid] at this
          exact absurd this (by simp)
      · have hunf : fiiGo queue id (fuel + 1) start stop
            = fiiGo queue id fuel ((start + stop) / 2 + 1) stop := by
          simp only [fiiGo]
          rw [if_pos hlt, hmid]
          simp
        obtain ⟨r1, r2, rlo, rhi⟩ := ih ((start + stop) / 2 + 1) stop
          (by omega) h2 (by omega)
          (fun k₁ k₂ hk1 hk2 hk3 => hmono k₁ k₂ (by omega) hk2 hk3)
        rw [hunf]
        refine ⟨by omega, r2, ?_, rhi⟩
        intro k hk1 hk2
        by_cases hkm : k ≤ (start + stop) / 2
        · have hle := hmono k ((start + stop) / 2) hk1 hkm hm2
          exact idLT_of_le_of_lt hle hmid
        · exact rlo k (by omega) hk2
    · have hunf : fiiGo queue id (fuel + 1) start stop = start := by
        simp only [fiiGo]
        rw [if_neg hlt]
      rw [hunf]
      exact ⟨Nat.le_refl _, h1,
        fun k hk1 hk2 => by omega, fun k hk1 hk2 => by omega⟩

theorem insertIdx_perm_cons {α : Type} (j : α) :
    ∀ (l : List α) (p : Nat), p ≤ l.length →
      (l.insertIdx p j).Perm (j :: l) := by
  intro l
  induction l with
  | nil =>
    intro p hp
    have heq : p = 0 := by simpa using hp
    subst heq
    exact List.Perm.refl _
  | cons a rest ih =>
    intro p hp
    cases p with
    | zero => exact List.Perm.refl _
    | succ q =>
      rw [List.insertIdx_succ_cons]
      exact ((ih q (by simpa using hp)).cons a).trans
        (List.Perm.swap j a rest)

/-- Inserting a job with id `n` between the jobs below `n` and the rest of a
sorted list keeps the list sorted. -/
theorem pairwise_insertIdx_sorted (j : Job) (n : Nat)
    (hj : getId j = some n) :
    ∀ (t : List Job) (p : Nat), p ≤ t.length →
      t.Pairwise JobLe →
      (∀ k, k < p → k < t.length →
        idLT (getId (t.getD k default)) n = true) →
      (∀ k, p ≤ k → k < t.length →
        idLT (getId (t.getD k default)) n = false) →
      (t.insertIdx p j).Pairwise JobLe := by
  intro t
  induction t with
  | nil =>
    intro p hp _ _ _
    have heq : p = 0 := by simpa using hp
    subst heq
    simp
  | cons a rest ih =>
    intro p hp hs hlo hhi
    cases p with
    | zero =>
      rw [List.insertIdx_zero]
      refine List.Pairwise.cons ?_ hs
      intro b hb
      obtain ⟨i, hi, rfl⟩ := List.getElem_of_mem hb
      have := hhi i (Nat.zero_le i) hi
      rw [getD_eq_getElemJ _ _ hi] at this
      exact jobLe_of_not_idLT hj this
    | succ q =>
      rw [List.insertIdx_succ_cons]
      have hq : q ≤ rest.length := by simpa using hp
      refine List.Pairwise.cons ?_ ?_
      · intro b hb
        rw [List.mem_insertIdx hq] at hb
        rcases hb with rfl | hb
        · have h0 := hlo 0 (Nat.succ_pos q) (by simp)
          exact jobLe_of_idLT hj (by simpa using h0)
        · exact (List.pairwise_cons.1 hs).1 b hb
      · refine ih q hq (List.pairwise_cons.1 hs).2 ?_ ?_
        · intro k hk hk2
          have := hlo (k + 1) (by omega) (by simpa using Nat.succ_lt_succ hk2)
          simpa using this
        · intro k hk hk2
          have := hhi (k + 1) (by omega) (by simpa using Nat.succ_lt_succ hk2)
          simpa using this

/-- **C8 (amended)**: while no flush is in progress, every `queueJob` call
preserves: (i) a job already present is never inserted a second time; (ii) a
job with no id is appended at the end; (iii) the queue is ascending by id
from its second element onward.  Full ascending order including the head is
not an invariant — the binary search never probes or returns a position
below `flushIndex + 1 = 1`, so a job with an id smaller than the head's is
placed after the head (order is only restored by the sort in `flushJobs`). -/
theorem c8_idle_queue_invariants (s : SchedState) (j : Job)
    (hif : s.isFlushing = false) (hfi : s.flushIndex = 0)
    (hcp : s.currentPreFlushParentJob = none)
    (hnd : s.queue.Nodup)
    (htail : (s.queue.drop 1).Pairwise JobLe) :
    (j ∈ s.queue → queueJob s j = s) ∧
    (j ∉ s.queue → j.id = none → (queueJob s j).queue = s.queue ++ [j]) ∧
    (queueJob s j).queue.Nodup ∧
    ((queueJob s j).queue.drop 1).Pairwise JobLe := by
  have hfrom : (if s.isFlushing && j.allowRecurse then s.flushIndex + 1
      else s.flushIndex) = 0 := by
    simp [hif, hfi]
  by_cases hmem : j ∈ s.queue
  · have hskip : queueJob s j = s := by
      have hinc : includesFrom s.queue 0 j = true := by
        simpa [includesFrom, List.contains] using hmem
      have hne : s.queue.isEmpty = false := by
        cases hq : s.queue with
        | nil => rw [hq] at hmem; exact absurd hmem (by simp)
        | cons a l => simp
      simp [queueJob, hfrom, hif, hfi, hinc, hne]
    rw [hskip]
    exact ⟨fun _ => rfl, fun h _ => absurd hmem h, hnd, htail⟩
  · have hcond : ((s.queue.isEmpty || !(includesFrom s.queue 0 j)) &&
        !(s.currentPreFlushParentJob == some j)) = true := by
      have hinc : includesFrom s.queue 0 j = false := by
        simpa [includesFrom, List.contains] using hmem
      simp [hinc, hcp]
    cases hid : j.id with
    | none =>
      have hqj : (queueJob s j).queue = s.queue ++ [j] := by
        simp only [queueJob, hfrom]
        rw [if_pos (by simpa using hcond)]
        simp [hid]
      refine ⟨fun h => absurd h hmem, fun _ _ => hqj, ?_, ?_⟩
      · rw [hqj]
        simp [List.nodup_append, hnd, hmem]
      · rw [hqj]
        cases hq : s.queue with
        | nil => simp
        | cons a l =>
          rw [hq] at htail
          simp only [List.cons_append, List.drop_succ_cons, List.drop_zero] at htail ⊢
          rw [List.pairwise_append]
          refine ⟨htail, by simp, ?_⟩
          intro x hx y hy
          rw [List.mem_singleton] at hy
          rw [hy]
          unfold JobLe
          rw [show getId j = none from hid]
          simp [idLE]
    | some n =>
      set pos := findInsertionIndex s.flushIndex s.queue n with hpos
      have hqj : (queueJob s j).queue = spliceInsert s.queue pos j := by
        simp only [queueJob, hfrom]
        rw [if_pos (by simpa using hcond)]
        simp [hid, hpos, hfi]
      have hnodup : (spliceInsert s.queue pos j).Nodup := by
        have hperm := insertIdx_perm_cons j s.queue (min pos s.queue.length)
          (Nat.min_le_right _ _)
        rw [spliceInsert]
        rw [hperm.nodup_iff]
        simp [hnd, hmem]
      refine ⟨fun h => absurd h hmem, fun _ h => by simp [hid] at h,
        (by rw [hqj]; exact hnodup), ?_⟩
      rw [hqj]
      cases hq : s.queue with
      | nil =>
        simp [spliceInsert, hq]
      | cons q0 tail =>
        have hlen : s.queue.length = tail.length + 1 := by simp [hq]
        have hspec := fiiGo_spec s.queue n (s.queue.length + 1) 1
          s.queue.length (by omega) (Nat.le_refl _) (by omega) ?mono
        case mono =>
          intro k₁ k₂ hk1 hk2 hk3
          by_cases hkk : k₁ = k₂
          · subst hkk; exact jobLe_refl _
          · have hk1l : k₁ - 1 < (s.queue.drop 1).length := by
              simp [List.length_drop]; omega
            have hk2l : k₂ - 1 < (s.queue.drop 1).length := by
              simp [List.length_drop]; omega
            have hpw := List.pairwise_iff_getElem.1 htail (k₁ - 1) (k₂ - 1)
              hk1l hk2l (by omega)
            rw [List.getElem_drop, List.getElem_drop] at hpw
            have he1 : 1 + (k₁ - 1) = k₁ := by omega
            have he2 : 1 + (k₂ - 1) = k₂ := by omega
            rw [getD_eq_getElemJ _ k₁ (by omega), getD_eq_getElemJ _ k₂ (by omega)]
            simp only [he1, he2] at hpw
            exact hpw
        have hposfi : pos = fiiGo s.queue n (s.queue.length + 1) 1
            s.queue.length := by
          rw [hpos, hfi, findInsertionIndex]
        rw [← hposfi] at hspec
        obtain ⟨hp1, hp2, hplo, hphi⟩ := hspec
        have hmin : min pos (q0 :: tail).length = pos := by
          rw [← hq]
          omega
        rw [spliceInsert, hmin]
        have hpos1 : pos = (pos - 1) + 1 := by omega
        rw [hpos1, List.insertIdx_succ_cons, List.drop_succ_cons,
          List.drop_zero]
        refine pairwise_insertIdx_sorted j n (by simpa [getId] using hid)
          tail (pos - 1) (by omega) ?_ ?_ ?_
        · rw [hq] at htail
          simpa using htail
        · intro k hk hk2
          have := hplo (k + 1) (by omega) (by omega)
          rw [hq] at this
          simpa using this
        · intro k hk hk2
          have := hphi (k + 1) (by omega) (by omega)
          rw [hq] at this
          simpa using this

/-- Witness for C8 (amended): enqueueing id 4 into the idle queue
`[id 5, id 3]` (tail-sorted) keeps the tail ascending and duplicates out. -/
theorem c8_idle_queue_invariants_witness :
    (queueJob (SchedState.mk [Job.mk 1 (some 5) false false,
        Job.mk 2 (some 3) false false] 0 false none)
      (Job.mk 3 (some 4) false false)).queue.Nodup ∧
    ((queueJob (SchedState.mk [Job.mk 1 (some 5) false false,
        Job.mk 2 (some 3) false false] 0 false none)
      (Job.mk 3 (some 4) false false)).queue.drop 1).Pairwise JobLe :=
  by
  have h := c8_idle_queue_invariants
    (SchedState.mk [Job.mk 1 (some 5) false false,
      Job.mk 2 (some 3) false false] 0 false none)
    (Job.mk 3 (some 4) false false) rfl rfl rfl
    (by decide) (by decide)
  exact ⟨h.2.2.1, h.2.2.2⟩

end Viu
